import Mathlib

/-!
# Verification of the land-map-gradient geometry core

Shallow embedding of the geometry pipeline in `geoUtils`
(`normalizePolygon`, `findClosestRoadAndConnection`,
`generateSubdivisionGrid`, `calculateLandValues`).

Coordinates are modelled as pairs of rationals (the source works on
IEEE doubles; the claims under verification are order/selection and
algebraic facts that do not depend on rounding).  The turf.js
primitives the source calls (`nearestPointOnLine`, `area`, `bbox`,
`squareGrid`, `booleanIntersects`, `intersect`, `centroid`,
`pointToLineDistance`) are external library functions, so they are
taken as abstract parameters; the two turf feature constructors the
source applies to raw coordinate arrays (`lineString`, `polygon`)
are modelled together with their input validation, since whether they
throw decides the error-handling claims.  Fallible code is embedded
in `Except String`.
-/

namespace LandMapGradient

/-! ## Geometry model and turf feature constructors -/

/-- A GeoJSON position: (longitude, latitude). -/
abbrev Position := ℚ × ℚ

/-- A linear ring / line of positions. -/
abbrev LinearRing := List Position

/-- Polygon coordinates: outer ring followed by hole rings. -/
abbrev PolyCoords := List LinearRing

/-- The geometry kinds the source discriminates on (`geometry.type`). -/
inductive Geometry where
  | polygon (coords : PolyCoords)
  | multiPolygon (coords : List PolyCoords)
  | lineString (coords : List Position)
  | point (coord : Position)
  | other
deriving DecidableEq

/-- Decidable equality for `Except`, so that concrete runs of the
fallible operations can be checked by `decide`. -/
instance exceptDecEq {E A : Type} [DecidableEq E] [DecidableEq A] :
    DecidableEq (Except E A)
  | .error a, .error b =>
      if h : a = b then .isTrue (by rw [h])
      else .isFalse (fun hc => by cases hc; exact h rfl)
  | .ok a, .ok b =>
      if h : a = b then .isTrue (by rw [h])
      else .isFalse (fun hc => by cases hc; exact h rfl)
  | .error _, .ok _ => .isFalse (fun hc => by cases hc)
  | .ok _, .error _ => .isFalse (fun hc => by cases hc)

/-- turf `polygon` helper ring validation: every linear ring must have at
least four positions and be closed (first position equals last). -/
def validLinearRing (ring : LinearRing) : Bool :=
  decide (4 ≤ ring.length) && (ring.getLast? == ring.head?)

/-- Models the `@turf/helpers` `polygon` constructor: throws unless every
ring is a valid closed linear ring; otherwise the feature keeps the
coordinates unchanged. -/
def turfPolygon (coords : PolyCoords) : Except String PolyCoords :=
  if coords.all validLinearRing then .ok coords
  else .error "invalid linear ring"

/-- Models the `@turf/helpers` `lineString` constructor applied to a
possibly-undefined coordinate array (the source passes `coordinates[0]`,
which is `undefined` for a ring-less polygon): accessing `.length` of
`undefined` or having fewer than two positions throws. -/
def turfLineString (coords : Option (List Position)) : Except String (List Position) :=
  match coords with
  | none => .error "coordinates are undefined"
  | some cs =>
      if cs.length < 2 then .error "coordinates must be an array of two or more positions"
      else .ok cs

/-! ## normalizePolygon -/

/-- The `coords.forEach` accumulator loop of `normalizePolygon`:
state `(maxArea, maxPolyCoords)` starts at `(-1, null)`; each constituent
is rebuilt with the (validating) `polygon` helper, its area taken, and the
state replaced exactly when the new area is strictly greater. -/
def normScan (areaF : PolyCoords → ℚ) :
    ℚ × Option PolyCoords → List PolyCoords → Except String (ℚ × Option PolyCoords)
  | acc, [] => .ok acc
  | acc, polyCoords :: rest =>
      match turfPolygon polyCoords with
      | .error e => .error e
      | .ok polyFeature =>
          let a := areaF polyFeature
          if acc.1 < a then normScan areaF (a, some polyCoords) rest
          else normScan areaF acc rest

/-- `normalizePolygon` from the source: `null`/missing geometry gives `null`,
a Polygon feature passes through unchanged, a MultiPolygon is reduced to
its maximum-area constituent (rebuilt via the `polygon` helper), anything
else gives `null`.  `areaF` abstracts `turfArea`. -/
def normalizePolygon (areaF : PolyCoords → ℚ) (feature : Option Geometry) :
    Except String (Option Geometry) :=
  match feature with
  | none => .ok none
  | some g =>
      match g with
      | .polygon _ => .ok (some g)
      | .multiPolygon coords =>
          match normScan areaF (-1, none) coords with
          | .error e => .error e
          | .ok (_, some maxPolyCoords) =>
              match turfPolygon maxPolyCoords with
              | .error e => .error e
              | .ok p => .ok (some (.polygon p))
          | .ok (_, none) => .ok none
      | _ => .ok none

/-! ## findClosestRoadAndConnection -/

/-- The result record of the nearest-road search. -/
structure ClosestRoadResult where
  roadIndex : ℕ
  distanceMeters : ℚ
  connection : List Position
deriving DecidableEq

/-- `turfExplode` on a LineString feature: its vertices as points. -/
def turfExplode (coords : List Position) : List Position := coords

/-- The backend nearest-point query `turfNearestPointOnLine(line, pt)`:
returns the nearest point on the line together with its distance
(`properties.dist`), or nothing when the result or its distance is
missing (the source guards all three of feature, properties, dist). -/
abbrev NearestFn := List Position → Position → Option (Position × ℚ)

/-- The samples one road contributes, in evaluation order: first every
boundary vertex against the road (connection `[boundary vertex, nearest
point on road]`), then every road vertex against the boundary (connection
`[nearest point on boundary, road vertex]`).  Vertices whose nearest-point
query yields no distance are skipped, exactly as in the source's guards. -/
def roadSamples (nearest : NearestFn) (boundary road : List Position) :
    List (ℚ × List Position) :=
  (turfExplode boundary).filterMap (fun pt =>
      (nearest road pt).map (fun nr => (nr.2, [pt, nr.1])))
  ++ (turfExplode road).filterMap (fun pt =>
      (nearest boundary pt).map (fun nb => (nb.2, [nb.1, pt])))

/-- One step of the per-road minimum scan: replace the running state
exactly when the new sample's distance is strictly smaller (`d <
currentMinDist`, where a `none` state is the initial `Infinity`). -/
def updateMin : Option (ℚ × List Position) → ℚ × List Position →
    Option (ℚ × List Position)
  | none, s => some s
  | some (m, c), s => if s.1 < m then some s else some (m, c)

/-- The per-road scan: `currentMinDist`/`currentConnection` after folding
over all of the road's samples, `none` when no sample produced a distance. -/
def roadScan (nearest : NearestFn) (boundary road : List Position) :
    Option (ℚ × List Position) :=
  (roadSamples nearest boundary road).foldl updateMin none

/-- The indexed `roads.forEach` loop: global state
`(closestRoadIndex, globalMinDist, bestConnection)` (with `none` for the
initial `(-1, Infinity, [])`), replaced exactly when a road's candidate
minimum is strictly smaller than the global minimum. -/
def scanGo (nearest : NearestFn) (boundary : List Position) :
    ℕ → Option (ℕ × ℚ × List Position) → List (List Position) →
    Option (ℕ × ℚ × List Position)
  | _, gst, [] => gst
  | idx, gst, road :: rest =>
      let gst' :=
        match roadScan nearest boundary road, gst with
        | none, g => g
        | some (d, c), none => some (idx, d, c)
        | some (d, c), some (gi, gd, gc) =>
            if d < gd then some (idx, d, c) else some (gi, gd, gc)
      scanGo nearest boundary (idx + 1) gst' rest

/-- Boundary-to-LineString extraction: a Polygon contributes its outer
ring (ring index 0, validated by the `lineString` helper), a MultiPolygon
contributes each part's outer ring, all other kinds contribute nothing. -/
def extractBoundaryLines (g : Geometry) : Except String (List (List Position)) :=
  match g with
  | .polygon coords =>
      match turfLineString coords.head? with
      | .error e => .error e
      | .ok l => .ok [l]
  | .multiPolygon coords => coords.mapM (fun poly => turfLineString poly.head?)
  | _ => .ok []

/-- `findClosestRoadAndConnection` from the source: null feature or empty
road list give `null`; otherwise the first extracted boundary line is
scanned against every road and the best `(index, distance, connection)`
is returned, `null` when no road ever produced a finite distance. -/
def findClosestRoadAndConnection (nearest : NearestFn)
    (polygonFeature : Option Geometry) (roads : List (List Position)) :
    Except String (Option ClosestRoadResult) :=
  match polygonFeature with
  | none => .ok none
  | some g =>
      if roads.isEmpty then .ok none
      else
        match extractBoundaryLines g with
        | .error e => .error e
        | .ok boundaryLines =>
            match boundaryLines.head? with
            | none => .ok none
            | some boundary =>
                match scanGo nearest boundary 0 none roads with
                | none => .ok none
                | some (i, d, c) => .ok (some ⟨i, d, c⟩)

/-- The candidate minimum distance of one road, as the specification
describes it: the minimum over the boundary-vertex-to-road and
road-vertex-to-boundary samples (`⊤` when no sample yields a distance). -/
def candidateMinDist (nearest : NearestFn) (boundary road : List Position) :
    WithTop ℚ :=
  ((roadSamples nearest boundary road).map Prod.fst).minimum

/-! ## generateSubdivisionGrid -/

/-- A bounding box `(minX, minY, maxX, maxY)`. -/
abbrev BBox := ℚ × ℚ × ℚ × ℚ

/-- `generateSubdivisionGrid` from the source, over abstract turf
backends: `turfBboxF` (`turfBbox`), `squareGridF` (`turfSquareGrid`,
called with the cell side converted from meters to kilometers),
`boolIntersectsF` (`turfBooleanIntersects`), and `intersectF`
(`turfIntersect` inside the source's try/catch, so an `Except`).
A null feature gives `[]`; each tile passing the cheap intersection test
is clipped, a Polygon clip is kept whole, a MultiPolygon clip is split
into one output cell per constituent part, and a failed or empty clip is
skipped.  The body of the grid's `forEach` is `clipStep` below, then
`generateSubdivisionGrid` folds it over the tiles. -/
def clipStep
    (boolIntersectsF : PolyCoords → Geometry → Bool)
    (intersectF : PolyCoords → Geometry → Except String (Option Geometry))
    (g : Geometry) (clippedCells : List PolyCoords) (cell : PolyCoords) :
    List PolyCoords :=
  if boolIntersectsF cell g then
    match intersectF cell g with
    | .error _ => clippedCells
    | .ok none => clippedCells
    | .ok (some (.polygon c)) => clippedCells ++ [c]
    | .ok (some (.multiPolygon cs)) => clippedCells ++ cs
    | .ok (some _) => clippedCells
  else clippedCells

def generateSubdivisionGrid
    (turfBboxF : Geometry → BBox)
    (squareGridF : BBox → ℚ → List PolyCoords)
    (boolIntersectsF : PolyCoords → Geometry → Bool)
    (intersectF : PolyCoords → Geometry → Except String (Option Geometry))
    (polygonFeature : Option Geometry) (cellSizeMeters : ℚ) : List PolyCoords :=
  match polygonFeature with
  | none => []
  | some g =>
      let bbox := turfBboxF g
      let cellSideKm := cellSizeMeters / 1000
      let grid := squareGridF bbox cellSideKm
      grid.foldl (clipStep boolIntersectsF intersectF g) []

/-! ## calculateLandValues -/

/-- The valuation mode. -/
inductive ValueMode where
  | linear
  | exponential
deriving DecidableEq

/-- One valued cell: the clipped cell, its centroid-to-road distance,
its score, and the colour produced from `t = 1 - value`. -/
structure CellValue (K : Type) where
  feature : PolyCoords
  distance : K
  value : K
  color : String
deriving DecidableEq

/-- The divisor `maxDistanceOverride || Math.max(...distances, 1)`:
JavaScript `||` falls back whenever the override is absent *or falsy*
(zero), so a zero override is replaced by the observed maximum floored
to 1. -/
def computeMaxDist {K : Type} [LinearOrderedField K]
    (dists : List K) (override : Option K) : K :=
  match override with
  | some v => if v = 0 then dists.foldr max 1 else v
  | none => dists.foldr max 1

/-- `calculateLandValues` from the source, generic over the scalar field
(instantiated at `ℚ` for the linear mode and at `ℝ` with `Real.exp` for
the exponential mode) and over the turf/d3 backends: `expF` (`Math.exp`
composed as `expF (-decayK * d)`), `colorScaleF` (the d3 sequential
ramp applied to `1 - value`), `centroidF` (`turfCentroid`) and
`pointToLineDistanceF` (`turfPointToLineDistance`, meters). -/
def calculateLandValues {K : Type} [LinearOrderedField K]
    (expF : K → K) (colorScaleF : K → String)
    (centroidF : PolyCoords → Position)
    (pointToLineDistanceF : Position → List Position → K)
    (cells : List PolyCoords) (roadFeature : Option (List Position))
    (mode : ValueMode) (decayK : K) (maxDistanceOverride : Option K) :
    List (CellValue K) :=
  match cells, roadFeature with
  | [], _ => []
  | _, none => []
  | c0 :: cs, some road =>
      let results := (c0 :: cs).map (fun cell =>
        (cell, pointToLineDistanceF (centroidF cell) road))
      let maxDist := computeMaxDist (results.map Prod.snd) maxDistanceOverride
      results.map (fun r =>
        let val : K :=
          match mode with
          | .linear => max 0 (1 - r.2 / maxDist)
          | .exponential => expF (-decayK * r.2)
        ⟨r.1, r.2, val, colorScaleF (1 - val)⟩)

/-! ## Ghost functions for the selection proofs -/

/-- Right-recursive characterization of the indexed road loop: the first
road (lowest index) achieving the minimal per-road scan result, together
with that road's scan value; ties are kept on the left. -/
def firstMinAux (nearest : NearestFn) (boundary : List Position) :
    ℕ → List (List Position) → Option (ℕ × ℚ × List Position)
  | _, [] => none
  | i, road :: rest =>
      match roadScan nearest boundary road, firstMinAux nearest boundary (i + 1) rest with
      | none, fm => fm
      | some (d, c), none => some (i, d, c)
      | some (d, c), some (j, e, c2) =>
          if d ≤ e then some (i, d, c) else some (j, e, c2)

/-- Merging an accumulated state with a right-hand first-minimum,
keeping the accumulated state on ties. -/
def combineG : Option (ℕ × ℚ × List Position) → Option (ℕ × ℚ × List Position) →
    Option (ℕ × ℚ × List Position)
  | g, none => g
  | none, some x => some x
  | some (gi, gd, gc), some (j, e, c2) =>
      if e < gd then some (j, e, c2) else some (gi, gd, gc)

/-- Right-recursive characterization of the MultiPolygon reduction loop:
the first (lowest-index) constituent of strictly maximum area; a later
part replaces an earlier one only when strictly larger. -/
def firstMaxAux (areaF : PolyCoords → ℚ) : ℕ → List PolyCoords →
    Option (ℕ × PolyCoords)
  | _, [] => none
  | i, p :: rest =>
      match firstMaxAux areaF (i + 1) rest with
      | none => some (i, p)
      | some (j, q) => if areaF p < areaF q then some (j, q) else some (i, p)

/-- Merging an accumulated `(maxArea, maxPolyCoords)` state with a
right-hand first-maximum, keeping the accumulated state on ties. -/
def combineA (areaF : PolyCoords → ℚ) (acc : ℚ × Option PolyCoords)
    (fm : Option (ℕ × PolyCoords)) : ℚ × Option PolyCoords :=
  match fm with
  | none => acc
  | some (_, q) => if acc.1 < areaF q then (areaF q, some q) else acc

/-! ## Concrete backends and data for witness runs -/

/-- Concrete boundary ring for witness runs: a square. -/
def demoRing : LinearRing := [(0,0),(4,0),(4,4),(0,4),(0,0)]

/-- Concrete boundary feature for witness runs. -/
def demoGeom : Geometry := .polygon [demoRing]

/-- First concrete road for witness runs. -/
def demoRoad0 : List Position := [(9,0),(9,9)]

/-- Second concrete road for witness runs. -/
def demoRoad1 : List Position := [(5,4),(5,9)]

/-- A concrete nearest-point backend for witness runs: the nearest point
is the line's first vertex, and the distance is read from a small table
(kept free of rational arithmetic so that runs reduce by `decide`). -/
def demoNearest : NearestFn := fun line pt =>
  match line.head? with
  | none => none
  | some q =>
      some (q, if line == demoRoad1 then (if pt == ((4:ℚ),(0:ℚ)) then 2 else 7)
               else (if pt == ((4:ℚ),(4:ℚ)) then 5 else 9))

/-- Concrete area backend for the C3 witness: the length of the outer
ring, giving constituent areas `5`, `6`, `4`. -/
def demoAreaF (p : PolyCoords) : ℚ := ((p.headD []).length : ℚ)

/-- First concrete MultiPolygon part (area 5 under `demoAreaF`). -/
def demoPartA : PolyCoords := [[(0,0),(1,0),(1,1),(0,1),(0,0)]]

/-- Second concrete MultiPolygon part (area 6 under `demoAreaF`). -/
def demoPartB : PolyCoords := [[(0,0),(1,0),(1,1),(0,1),(2,2),(0,0)]]

/-- Third concrete MultiPolygon part (area 4 under `demoAreaF`). -/
def demoPartC : PolyCoords := [[(0,0),(1,0),(1,1),(0,0)]]

/-! ## Results of normalizePolygon are null or Polygon-typed -/

/-- Every successful `normalizePolygon` run returns either `null` or a
Polygon-typed feature (never a MultiPolygon or other kind). -/
theorem normalizePolygon_ok_shape (areaF : PolyCoords → ℚ)
    (p : Option Geometry) (q : Option Geometry)
    (h : normalizePolygon areaF p = .ok q) :
    q = none ∨ ∃ c, q = some (Geometry.polygon c) := by
  cases p with
  | none =>
      simp only [normalizePolygon, Except.ok.injEq] at h
      exact Or.inl h.symm
  | some g =>
      cases g with
      | polygon c =>
          simp only [normalizePolygon, Except.ok.injEq] at h
          exact Or.inr ⟨c, h.symm⟩
      | multiPolygon coords =>
          simp only [normalizePolygon] at h
          rcases hs : normScan areaF (-1, none) coords with _ | ⟨m, best⟩
          · rw [hs] at h; cases h
          · rw [hs] at h
            cases best with
            | none => exact Or.inl (Except.ok.inj h).symm
            | some mpc =>
                dsimp only at h
                rcases ht : turfPolygon mpc with _ | pc
                · rw [ht] at h; cases h
                · rw [ht] at h
                  exact Or.inr ⟨pc, (Except.ok.inj h).symm⟩
      | lineString c =>
          simp only [normalizePolygon, Except.ok.injEq] at h
          exact Or.inl h.symm
      | point c =>
          simp only [normalizePolygon, Except.ok.injEq] at h
          exact Or.inl h.symm
      | other =>
          simp only [normalizePolygon, Except.ok.injEq] at h
          exact Or.inl h.symm

/-- C7: `normalizePolygon` is idempotent: every Polygon input passes
through unchanged, so whenever `normalize p` succeeds with result `q`,
running `normalize` again on `q` returns `q` itself. -/
theorem claim_C7_normalizePolygon_idempotent (areaF : PolyCoords → ℚ)
    (p q : Option Geometry) :
    (∀ c, normalizePolygon areaF (some (Geometry.polygon c))
        = .ok (some (Geometry.polygon c))) ∧
    (normalizePolygon areaF p = .ok q → normalizePolygon areaF q = .ok q) := by
  refine ⟨fun c => rfl, fun h => ?_⟩
  rcases normalizePolygon_ok_shape areaF p q h with hq | ⟨c, hq⟩
  · rw [hq]; rfl
  · rw [hq]; rfl

/-- Witness for C7 at a concrete input: a MultiPolygon reduces to a
Polygon, and normalizing that result again leaves it unchanged. -/
theorem claim_C7_witness :
    normalizePolygon (fun p => ((p.headD []).length : ℚ))
        (some (Geometry.multiPolygon [[[(0,0),(2,0),(2,2),(0,2),(0,0)]]]))
      = .ok (some (Geometry.polygon [[(0,0),(2,0),(2,2),(0,2),(0,0)]])) ∧
    normalizePolygon (fun p => ((p.headD []).length : ℚ))
        (some (Geometry.polygon [[(0,0),(2,0),(2,2),(0,2),(0,0)]]))
      = .ok (some (Geometry.polygon [[(0,0),(2,0),(2,2),(0,2),(0,0)]])) := by
  have h1 : normalizePolygon (fun p => ((p.headD []).length : ℚ))
      (some (Geometry.multiPolygon [[[(0,0),(2,0),(2,2),(0,2),(0,0)]]]))
      = .ok (some (Geometry.polygon [[(0,0),(2,0),(2,2),(0,2),(0,0)]])) := by decide
  exact ⟨h1, (claim_C7_normalizePolygon_idempotent (fun p => ((p.headD []).length : ℚ))
      (some (Geometry.multiPolygon [[[(0,0),(2,0),(2,2),(0,2),(0,0)]]]))
      (some (Geometry.polygon [[(0,0),(2,0),(2,2),(0,2),(0,0)]]))).2 h1⟩

/-! ## MultiPolygon reduction selects the first maximum-area part -/

/-- On constituents that pass ring validation, the reduction loop equals
its right-recursive first-maximum characterization merged with the
incoming state. -/
theorem normScan_eq_combineA (areaF : PolyCoords → ℚ) :
    ∀ (l : List PolyCoords) (i : ℕ) (acc : ℚ × Option PolyCoords),
    (∀ p ∈ l, turfPolygon p = .ok p) →
    normScan areaF acc l = .ok (combineA areaF acc (firstMaxAux areaF i l))
  | [], i, acc, _ => rfl
  | p :: rest, i, acc, hv => by
      have hvp : turfPolygon p = .ok p := hv p (List.mem_cons_self _ _)
      have hvrest : ∀ q ∈ rest, turfPolygon q = .ok q :=
        fun q hq => hv q (List.mem_cons_of_mem _ hq)
      have IH := normScan_eq_combineA areaF rest (i + 1)
      simp only [normScan, hvp]
      rcases hf : firstMaxAux areaF (i + 1) rest with _ | x
      · by_cases hacc : acc.1 < areaF p
        · rw [if_pos hacc, IH (areaF p, some p) hvrest, hf]
          simp [firstMaxAux, hf, combineA, hacc]
        · rw [if_neg hacc, IH acc hvrest, hf]
          simp [firstMaxAux, hf, combineA, hacc]
      · obtain ⟨j, q⟩ := x
        by_cases hacc : acc.1 < areaF p
        · rw [if_pos hacc, IH (areaF p, some p) hvrest, hf]
          by_cases hpq : areaF p < areaF q
          · simp [firstMaxAux, hf, combineA, hpq, lt_trans hacc hpq]
          · simp [firstMaxAux, hf, combineA, hpq, hacc]
        · rw [if_neg hacc, IH acc hvrest, hf]
          by_cases hpq : areaF p < areaF q
          · simp [firstMaxAux, hf, combineA, hpq]
          · have hqa : ¬ acc.1 < areaF q :=
              not_lt.mpr (le_trans (not_lt.mp hpq) (not_lt.mp hacc))
            simp [firstMaxAux, hf, combineA, hpq, hacc, hqa]

/-- The first-maximum characterization is empty exactly on the empty list. -/
theorem firstMaxAux_eq_none (areaF : PolyCoords → ℚ) :
    ∀ (l : List PolyCoords) (i : ℕ),
    firstMaxAux areaF i l = none ↔ l = []
  | [], i => by simp [firstMaxAux]
  | p :: rest, i => by
      constructor
      · intro h
        rcases hf : firstMaxAux areaF (i + 1) rest with _ | x
        · simp only [firstMaxAux, hf] at h
          cases h
        · obtain ⟨j, q⟩ := x
          simp only [firstMaxAux, hf] at h
          by_cases hpq : areaF p < areaF q
          · rw [if_pos hpq] at h; cases h
          · rw [if_neg hpq] at h; cases h
      · intro h
        cases h

/-- Full specification of the first-maximum characterization: a result
`(j, q)` names the part at offset `j - i`, whose area upper-bounds every
part's area, strictly so for every part at an earlier index. -/
theorem firstMaxAux_spec (areaF : PolyCoords → ℚ) :
    ∀ (l : List PolyCoords) (i j : ℕ) (q : PolyCoords),
    firstMaxAux areaF i l = some (j, q) →
    ∃ k, j = i + k ∧ l.get? k = some q ∧
      (∀ k' p', l.get? k' = some p' → areaF p' ≤ areaF q) ∧
      (∀ k' p', l.get? k' = some p' → k' < k → areaF p' < areaF q)
  | [], i, j, q => by intro h; cases h
  | p :: rest, i, j, q => by
      intro h
      rcases hf : firstMaxAux areaF (i + 1) rest with _ | x
      · have hrest : rest = [] := (firstMaxAux_eq_none areaF rest (i + 1)).mp hf
        subst hrest
        simp only [firstMaxAux, hf] at h
        have hij : i = j ∧ p = q := by
          have h1 := Option.some.inj h
          exact ⟨congrArg Prod.fst h1, congrArg Prod.snd h1⟩
        obtain ⟨rfl, rfl⟩ := hij
        refine ⟨0, by omega, rfl, ?_, ?_⟩
        · intro k' p' hget'
          cases k' with
          | zero => exact le_of_eq (congrArg areaF (Option.some.inj hget')).symm
          | succ k'' => cases hget'
        · intro k' p' hget' hk'
          omega
      · obtain ⟨j₁, q₁⟩ := x
        simp only [firstMaxAux, hf] at h
        obtain ⟨k₁, hj₁, hget, hlb, hfirst⟩ :=
          firstMaxAux_spec areaF rest (i + 1) j₁ q₁ hf
        by_cases hpq : areaF p < areaF q₁
        · rw [if_pos hpq] at h
          have hij : j₁ = j ∧ q₁ = q := by
            have h1 := Option.some.inj h
            exact ⟨congrArg Prod.fst h1, congrArg Prod.snd h1⟩
          obtain ⟨rfl, rfl⟩ := hij
          refine ⟨k₁ + 1, by omega, hget, ?_, ?_⟩
          · intro k' p' hget'
            cases k' with
            | zero =>
                have hpp : p = p' := Option.some.inj hget'
                exact le_of_lt (hpp ▸ hpq)
            | succ k'' => exact hlb k'' p' hget'
          · intro k' p' hget' hk'
            cases k' with
            | zero =>
                have hpp : p = p' := Option.some.inj hget'
                exact hpp ▸ hpq
            | succ k'' => exact hfirst k'' p' hget' (by omega)
        · rw [if_neg hpq] at h
          have hij : i = j ∧ p = q := by
            have h1 := Option.some.inj h
            exact ⟨congrArg Prod.fst h1, congrArg Prod.snd h1⟩
          obtain ⟨rfl, rfl⟩ := hij
          refine ⟨0, by omega, rfl, ?_, ?_⟩
          · intro k' p' hget'
            cases k' with
            | zero => exact le_of_eq (congrArg areaF (Option.some.inj hget')).symm
            | succ k'' =>
                exact le_trans (hlb k'' p' hget') (not_lt.mp hpq)
          · intro k' p' hget' hk'
            omega

/-- C3: on a MultiPolygon whose parts are valid rings with non-negative
areas, `normalizePolygon` with zero parts returns null, and with at least
one part returns the constituent of strictly maximum area, ties resolved
to the first-encountered part: the result is the part at some index `k`,
no part has a strictly larger area, and every part before index `k` has a
strictly smaller area. -/
theorem claim_C3_multipolygon_max_area (areaF : PolyCoords → ℚ)
    (parts : List PolyCoords)
    (hA : ∀ p ∈ parts, 0 ≤ areaF p)
    (hV : ∀ p ∈ parts, p.all validLinearRing = true) :
    (parts = [] →
      normalizePolygon areaF (some (Geometry.multiPolygon parts)) = .ok none) ∧
    (parts ≠ [] → ∃ k part, parts.get? k = some part ∧
      normalizePolygon areaF (some (Geometry.multiPolygon parts))
        = .ok (some (Geometry.polygon part)) ∧
      (∀ j q, parts.get? j = some q → areaF q ≤ areaF part) ∧
      (∀ j q, parts.get? j = some q → j < k → areaF q < areaF part)) := by
  have hok : ∀ p ∈ parts, turfPolygon p = .ok p := by
    intro p hp
    simp [turfPolygon, hV p hp]
  constructor
  · rintro rfl
    rfl
  · intro hne
    rcases hfm : firstMaxAux areaF 0 parts with _ | x
    · exact absurd ((firstMaxAux_eq_none areaF parts 0).mp hfm) hne
    · obtain ⟨j, q⟩ := x
      obtain ⟨k, hj, hget, hlb, hfirst⟩ := firstMaxAux_spec areaF parts 0 j q hfm
      have hqmem : q ∈ parts := List.get?_mem hget
      have hqa : (-1 : ℚ) < areaF q := lt_of_lt_of_le (by norm_num) (hA q hqmem)
      have hscan : normScan areaF (-1, none) parts = .ok (areaF q, some q) := by
        rw [normScan_eq_combineA areaF parts 0 (-1, none) hok, hfm]
        simp [combineA, hqa]
      refine ⟨k, q, hget, ?_, hlb, hfirst⟩
      unfold normalizePolygon
      dsimp only
      rw [hscan]
      dsimp only
      rw [hok q hqmem]

/-- Witness for C3 at a concrete input: of three parts with areas
`[5, 6, 4]`, normalization returns the part of area `6`. -/
theorem claim_C3_witness :
    ∃ k part, [demoPartA, demoPartB, demoPartC].get? k = some part ∧
      normalizePolygon demoAreaF
          (some (Geometry.multiPolygon [demoPartA, demoPartB, demoPartC]))
        = .ok (some (Geometry.polygon part)) ∧
      (∀ j q, [demoPartA, demoPartB, demoPartC].get? j = some q →
        demoAreaF q ≤ demoAreaF part) ∧
      (∀ j q, [demoPartA, demoPartB, demoPartC].get? j = some q → j < k →
        demoAreaF q < demoAreaF part) :=
  (claim_C3_multipolygon_max_area demoAreaF [demoPartA, demoPartB, demoPartC]
    (by decide) (by decide)).2 (by decide)

/-! ## The per-road minimum scan computes the candidate minimum -/

/-- One update step always produces a state. -/
theorem updateMin_ne_none (st : Option (ℚ × List Position))
    (s : ℚ × List Position) : updateMin st s ≠ none := by
  cases st with
  | none => simp [updateMin]
  | some p =>
      obtain ⟨m, c⟩ := p
      by_cases hlt : s.1 < m <;> simp [updateMin, hlt]

/-- The strict-improvement fold never forgets a state: it ends empty only
when it started empty and saw no samples. -/
theorem foldl_updateMin_eq_none :
    ∀ (l : List (ℚ × List Position)) (st : Option (ℚ × List Position)),
    l.foldl updateMin st = none ↔ st = none ∧ l = []
  | [], st => by simp
  | s :: rest, st => by
      rw [List.foldl_cons, foldl_updateMin_eq_none rest (updateMin st s)]
      constructor
      · rintro ⟨h, rfl⟩
        exact absurd h (updateMin_ne_none st s)
      · rintro ⟨rfl, h⟩
        cases h

/-- A successful strict-improvement fold returns a sample (or its initial
state) that lower-bounds every sample seen and the initial state. -/
theorem foldl_updateMin_eq_some :
    ∀ (l : List (ℚ × List Position)) (st : Option (ℚ × List Position))
      (d : ℚ) (c : List Position),
    l.foldl updateMin st = some (d, c) →
      (st = some (d, c) ∨ (d, c) ∈ l) ∧ (∀ s ∈ l, d ≤ s.1) ∧
      (∀ m cc, st = some (m, cc) → d ≤ m)
  | [], st, d, c => by
      intro h
      rw [List.foldl_nil] at h
      refine ⟨Or.inl h, by simp, ?_⟩
      intro m cc hcc
      rw [hcc] at h
      have hmd : m = d := (Prod.mk.injEq .. ▸ Option.some.inj h).1
      exact le_of_eq hmd.symm
  | s :: rest, st, d, c => by
      intro h
      rw [List.foldl_cons] at h
      obtain ⟨h1, h2, h3⟩ := foldl_updateMin_eq_some rest (updateMin st s) d c h
      cases st with
      | none =>
          rw [show updateMin none s = some s from rfl] at h1 h3
          have hds : d ≤ s.1 := h3 s.1 s.2 rfl
          refine ⟨?_, ?_, ?_⟩
          · rcases h1 with h1 | h1
            · have : s = (d, c) := Option.some.inj h1
              exact Or.inr (this ▸ List.mem_cons_self _ _)
            · exact Or.inr (List.mem_cons_of_mem _ h1)
          · intro x hx
            rcases List.mem_cons.mp hx with rfl | hx
            · exact hds
            · exact h2 x hx
          · rintro m cc hcc
            cases hcc
      | some p =>
          obtain ⟨m₀, c₀⟩ := p
          by_cases hlt : s.1 < m₀
          · have hst : updateMin (some (m₀, c₀)) s = some s := by
              simp [updateMin, hlt]
            rw [hst] at h1 h3
            have hds : d ≤ s.1 := h3 s.1 s.2 rfl
            refine ⟨?_, ?_, ?_⟩
            · rcases h1 with h1 | h1
              · have : s = (d, c) := Option.some.inj h1
                exact Or.inr (this ▸ List.mem_cons_self _ _)
              · exact Or.inr (List.mem_cons_of_mem _ h1)
            · intro x hx
              rcases List.mem_cons.mp hx with rfl | hx
              · exact hds
              · exact h2 x hx
            · intro m cc hcc
              have hmd : m₀ = m := (Prod.mk.injEq .. ▸ Option.some.inj hcc).1
              exact hmd ▸ le_of_lt (lt_of_le_of_lt hds hlt)
          · have hst : updateMin (some (m₀, c₀)) s = some (m₀, c₀) := by
              simp [updateMin, hlt]
            rw [hst] at h1 h3
            have hdm : d ≤ m₀ := h3 m₀ c₀ rfl
            refine ⟨?_, ?_, ?_⟩
            · rcases h1 with h1 | h1
              · exact Or.inl h1
              · exact Or.inr (List.mem_cons_of_mem _ h1)
            · intro x hx
              rcases List.mem_cons.mp hx with rfl | hx
              · exact le_trans hdm (not_lt.mp hlt)
              · exact h2 x hx
            · intro m cc hcc
              have hmd : m₀ = m := (Prod.mk.injEq .. ▸ Option.some.inj hcc).1
              exact hmd ▸ hdm

/-- The per-road scan yields nothing exactly when the road contributed no
samples. -/
theorem roadScan_eq_none (nearest : NearestFn) (boundary road : List Position) :
    roadScan nearest boundary road = none ↔
      roadSamples nearest boundary road = [] := by
  unfold roadScan
  rw [foldl_updateMin_eq_none]
  simp

/-- A successful per-road scan returns one of the road's samples, and its
distance lower-bounds every sample distance. -/
theorem roadScan_eq_some (nearest : NearestFn) (boundary road : List Position)
    (d : ℚ) (c : List Position)
    (h : roadScan nearest boundary road = some (d, c)) :
    (d, c) ∈ roadSamples nearest boundary road ∧
    ∀ s ∈ roadSamples nearest boundary road, d ≤ s.1 := by
  obtain ⟨h1, h2, _⟩ := foldl_updateMin_eq_some _ none d c h
  rcases h1 with h1 | h1
  · cases h1
  · exact ⟨h1, h2⟩

/-- The distance of a successful per-road scan is exactly the candidate
minimum distance of that road. -/
theorem candidateMinDist_eq_coe (nearest : NearestFn)
    (boundary road : List Position) (d : ℚ) (c : List Position)
    (h : roadScan nearest boundary road = some (d, c)) :
    candidateMinDist nearest boundary road = (d : WithTop ℚ) := by
  obtain ⟨h1, h2⟩ := roadScan_eq_some nearest boundary road d c h
  unfold candidateMinDist
  rw [List.minimum_eq_coe_iff]
  exact ⟨List.mem_map_of_mem Prod.fst h1,
    fun a ha => by
      obtain ⟨s, hs, rfl⟩ := List.mem_map.mp ha
      exact h2 s hs⟩

/-- A road with no samples has candidate minimum distance `⊤`. -/
theorem candidateMinDist_eq_top (nearest : NearestFn)
    (boundary road : List Position)
    (h : roadScan nearest boundary road = none) :
    candidateMinDist nearest boundary road = ⊤ := by
  unfold candidateMinDist
  rw [(roadScan_eq_none nearest boundary road).mp h]
  rfl

/-! ## The road loop selects the first argmin road -/

/-- The indexed left fold of the road loop equals its right-recursive
first-minimum characterization, merged with the incoming state. -/
theorem scanGo_eq_combineG (nearest : NearestFn) (boundary : List Position) :
    ∀ (l : List (List Position)) (i : ℕ) (g : Option (ℕ × ℚ × List Position)),
    scanGo nearest boundary i g l =
      combineG g (firstMinAux nearest boundary i l)
  | [], i, g => by cases g <;> rfl
  | road :: rest, i, g => by
      have IH := scanGo_eq_combineG nearest boundary rest (i + 1)
      rcases hr : roadScan nearest boundary road with _ | ⟨d, c⟩
      · simp only [scanGo, firstMinAux, hr]
        exact IH g
      · rcases hf : firstMinAux nearest boundary (i + 1) rest with _ | ⟨j, e, c2⟩
        · cases g with
          | none =>
              simp only [scanGo, firstMinAux, hr, hf, IH]
              rfl
          | some gp =>
              obtain ⟨gi, gd, gc⟩ := gp
              by_cases hlt : d < gd <;>
                simp [scanGo, firstMinAux, hr, hf, IH, combineG, hlt]
        · cases g with
          | none =>
              by_cases hde : d ≤ e
              · simp [scanGo, firstMinAux, hr, hf, IH, combineG, hde]
              · simp [scanGo, firstMinAux, hr, hf, IH, combineG, hde,
                  lt_of_not_le hde]
          | some gp =>
              obtain ⟨gi, gd, gc⟩ := gp
              by_cases hlt : d < gd
              · by_cases hde : d ≤ e
                · simp [scanGo, firstMinAux, hr, hf, IH, combineG, hde, hlt,
                    not_lt.mpr hde]
                · have hed : e < d := lt_of_not_le hde
                  simp [scanGo, firstMinAux, hr, hf, IH, combineG, hde, hlt,
                    hed, lt_trans hed hlt]
              · have hgd : gd ≤ d := not_lt.mp hlt
                by_cases hde : d ≤ e
                · have hne : ¬ e < gd := not_lt.mpr (le_trans hgd hde)
                  simp [scanGo, firstMinAux, hr, hf, IH, combineG, hde, hlt, hne]
                · simp [scanGo, firstMinAux, hr, hf, IH, combineG, hde, hlt]
  termination_by l => l.length

/-- The first-minimum characterization is empty exactly when every road's
scan is empty. -/
theorem firstMinAux_eq_none (nearest : NearestFn) (boundary : List Position) :
    ∀ (l : List (List Position)) (i : ℕ),
    firstMinAux nearest boundary i l = none ↔
      ∀ r ∈ l, roadScan nearest boundary r = none
  | [], i => by simp [firstMinAux]
  | road :: rest, i => by
      rcases hr : roadScan nearest boundary road with _ | ⟨d, c⟩
      · simp only [firstMinAux, hr]
        rw [firstMinAux_eq_none nearest boundary rest (i + 1)]
        constructor
        · intro h r hmem
          rcases List.mem_cons.mp hmem with rfl | hm
          · exact hr
          · exact h r hm
        · intro h r hm
          exact h r (List.mem_cons_of_mem _ hm)
      · have hL : firstMinAux nearest boundary i (road :: rest) ≠ none := by
          simp only [firstMinAux, hr]
          rcases hf : firstMinAux nearest boundary (i + 1) rest with _ | ⟨j, e, c2⟩
          · simp
          · by_cases hde : d ≤ e <;> simp [hde]
        constructor
        · intro h
          exact absurd h hL
        · intro h
          exact absurd (h road (List.mem_cons_self _ _)) (by simp [hr])

/-- Full specification of the first-minimum characterization: a result
`(j, d, c)` names the road at offset `j - i`, whose scan value `(d, c)`
lower-bounds every road's scan distance, strictly so for every road at an
earlier index. -/
theorem firstMinAux_spec (nearest : NearestFn) (boundary : List Position) :
    ∀ (l : List (List Position)) (i j : ℕ) (d : ℚ) (c : List Position),
    firstMinAux nearest boundary i l = some (j, d, c) →
    ∃ k road, l.get? k = some road ∧ j = i + k ∧
      roadScan nearest boundary road = some (d, c) ∧
      (∀ k' r', l.get? k' = some r' →
        ∀ e c', roadScan nearest boundary r' = some (e, c') → d ≤ e) ∧
      (∀ k' r', l.get? k' = some r' → k' < k →
        ∀ e c', roadScan nearest boundary r' = some (e, c') → d < e)
  | [], i, j, d, c => by intro h; cases h
  | road :: rest, i, j, d, c => by
      intro h
      rcases hr : roadScan nearest boundary road with _ | ⟨d₀, c₀⟩
      · simp only [firstMinAux, hr] at h
        obtain ⟨k, rd, hget, hj, hscan, hlb, hfirst⟩ :=
          firstMinAux_spec nearest boundary rest (i + 1) j d c h
        refine ⟨k + 1, rd, hget, by omega, hscan, ?_, ?_⟩
        · intro k' r' hget' e c' hscan'
          cases k' with
          | zero =>
              have hrr : road = r' := Option.some.inj hget'
              rw [← hrr, hr] at hscan'
              cases hscan'
          | succ k'' => exact hlb k'' r' hget' e c' hscan'
        · intro k' r' hget' hk' e c' hscan'
          cases k' with
          | zero =>
              have hrr : road = r' := Option.some.inj hget'
              rw [← hrr, hr] at hscan'
              cases hscan'
          | succ k'' => exact hfirst k'' r' hget' (by omega) e c' hscan'
      · rcases hf : firstMinAux nearest boundary (i + 1) rest with _ | ⟨j₁, e₁, cc₁⟩
        · simp only [firstMinAux, hr, hf] at h
          have hjj : i = j ∧ d₀ = d ∧ c₀ = c := by
            have h1 := Option.some.inj h
            exact ⟨congrArg Prod.fst h1, congrArg (fun x => x.2.1) h1,
              congrArg (fun x => x.2.2) h1⟩
          obtain ⟨rfl, rfl, rfl⟩ := hjj
          have hrest : ∀ r ∈ rest, roadScan nearest boundary r = none :=
            (firstMinAux_eq_none nearest boundary rest (i + 1)).mp hf
          refine ⟨0, road, rfl, by omega, hr, ?_, ?_⟩
          · intro k' r' hget' e c' hscan'
            cases k' with
            | zero =>
                have hrr : road = r' := Option.some.inj hget'
                rw [← hrr, hr] at hscan'
                have hde : d₀ = e := congrArg (fun x => x.1) (Option.some.inj hscan')
                exact le_of_eq hde
            | succ k'' =>
                rw [hrest r' (List.get?_mem hget')] at hscan'
                cases hscan'
          · intro k' r' hget' hk' e c' hscan'
            omega
        · simp only [firstMinAux, hr, hf] at h
          obtain ⟨k₁, rd, hget, hj₁, hscan, hlb, hfirst⟩ :=
            firstMinAux_spec nearest boundary rest (i + 1) j₁ e₁ cc₁ hf
          by_cases hde : d₀ ≤ e₁
          · rw [if_pos hde] at h
            have hjj : i = j ∧ d₀ = d ∧ c₀ = c := by
              have h1 := Option.some.inj h
              exact ⟨congrArg Prod.fst h1, congrArg (fun x => x.2.1) h1,
                congrArg (fun x => x.2.2) h1⟩
            obtain ⟨rfl, rfl, rfl⟩ := hjj
            refine ⟨0, road, rfl, by omega, hr, ?_, ?_⟩
            · intro k' r' hget' e c' hscan'
              cases k' with
              | zero =>
                  have hrr : road = r' := Option.some.inj hget'
                  rw [← hrr, hr] at hscan'
                  have hd0 : d₀ = e := congrArg (fun x => x.1) (Option.some.inj hscan')
                  exact le_of_eq hd0
              | succ k'' =>
                  exact le_trans hde (hlb k'' r' hget' e c' hscan')
            · intro k' r' hget' hk' e c' hscan'
              omega
          · rw [if_neg hde] at h
            have hlt : e₁ < d₀ := lt_of_not_le hde
            have hjj : j₁ = j ∧ e₁ = d ∧ cc₁ = c := by
              have h1 := Option.some.inj h
              exact ⟨congrArg Prod.fst h1, congrArg (fun x => x.2.1) h1,
                congrArg (fun x => x.2.2) h1⟩
            obtain ⟨rfl, rfl, rfl⟩ := hjj
            refine ⟨k₁ + 1, rd, hget, by omega, hscan, ?_, ?_⟩
            · intro k' r' hget' e c' hscan'
              cases k' with
              | zero =>
                  have hrr : road = r' := Option.some.inj hget'
                  rw [← hrr, hr] at hscan'
                  have hd0 : d₀ = e := congrArg (fun x => x.1) (Option.some.inj hscan')
                  exact le_of_lt (hd0 ▸ hlt)
              | succ k'' => exact hlb k'' r' hget' e c' hscan'
            · intro k' r' hget' hk' e c' hscan'
              cases k' with
              | zero =>
                  have hrr : road = r' := Option.some.inj hget'
                  rw [← hrr, hr] at hscan'
                  have hd0 : d₀ = e := congrArg (fun x => x.1) (Option.some.inj hscan')
                  exact hd0 ▸ hlt
              | succ k'' => exact hfirst k'' r' hget' (by omega) e c' hscan'

/-- Merging from an empty accumulated state is the identity. -/
theorem combineG_none (fm : Option (ℕ × ℚ × List Position)) :
    combineG none fm = fm := by
  cases fm with
  | none => rfl
  | some x =>
      obtain ⟨j, e, c⟩ := x
      rfl

/-- Inversion of a successful, non-null nearest-road search: the feature
was present, its boundary lines extracted without error with a first
line, and the result fields are the first minimum of the road loop. -/
theorem findClosest_ok_some (nearest : NearestFn) (pf : Option Geometry)
    (roads : List (List Position)) (res : ClosestRoadResult)
    (h : findClosestRoadAndConnection nearest pf roads = .ok (some res)) :
    ∃ g bls B, pf = some g ∧ extractBoundaryLines g = .ok bls ∧
      bls.head? = some B ∧
      firstMinAux nearest B 0 roads
        = some (res.roadIndex, res.distanceMeters, res.connection) := by
  cases pf with
  | none =>
      rw [show findClosestRoadAndConnection nearest none roads = .ok none from rfl] at h
      cases (Except.ok.inj h)
  | some g =>
      unfold findClosestRoadAndConnection at h
      dsimp only at h
      by_cases he : roads.isEmpty
      · rw [if_pos he] at h
        cases (Except.ok.inj h)
      · rw [if_neg he] at h
        rcases hex : extractBoundaryLines g with e | bls
        · rw [hex] at h; cases h
        · rw [hex] at h
          dsimp only at h
          rcases hhd : bls.head? with _ | B
          · rw [hhd] at h
            cases (Except.ok.inj h)
          · rw [hhd] at h
            dsimp only at h
            rcases hsc : scanGo nearest B 0 none roads with _ | x
            · rw [hsc] at h
              cases (Except.ok.inj h)
            · obtain ⟨i, d, c⟩ := x
              rw [hsc] at h
              dsimp only at h
              have hres : ClosestRoadResult.mk i d c = res :=
                Option.some.inj (Except.ok.inj h)
              rw [scanGo_eq_combineG nearest B roads 0 none, combineG_none] at hsc
              refine ⟨g, bls, B, rfl, hex, hhd, ?_⟩
              rw [hsc, ← hres]

/-- C4: whenever `findClosestRoadAndConnection` returns a non-null result,
its `roadIndex` points at the road whose candidate minimum distance (the
minimum over boundary-vertex-to-road and road-vertex-to-boundary samples)
equals the reported distance and is least over all roads, and every road
at a strictly lower index has a strictly greater candidate minimum (ties
are won by the lower index). -/
theorem claim_C4_first_argmin_road (nearest : NearestFn) (pf : Option Geometry)
    (roads : List (List Position)) (g : Geometry)
    (bls : List (List Position)) (B : List Position) (res : ClosestRoadResult)
    (hpf : pf = some g) (hex : extractBoundaryLines g = .ok bls)
    (hhd : bls.head? = some B)
    (hres : findClosestRoadAndConnection nearest pf roads = .ok (some res)) :
    ∃ winner, roads.get? res.roadIndex = some winner ∧
      candidateMinDist nearest B winner = (res.distanceMeters : WithTop ℚ) ∧
      (∀ j r, roads.get? j = some r →
        (res.distanceMeters : WithTop ℚ) ≤ candidateMinDist nearest B r) ∧
      (∀ j r, roads.get? j = some r → j < res.roadIndex →
        (res.distanceMeters : WithTop ℚ) < candidateMinDist nearest B r) := by
  obtain ⟨g', bls', B', hpf', hex', hhd', hfm⟩ :=
    findClosest_ok_some nearest pf roads res hres
  have hg : g' = g := by rw [hpf] at hpf'; exact (Option.some.inj hpf').symm
  have hbls : bls' = bls := by
    rw [hg] at hex'; rw [hex] at hex'; exact (Except.ok.inj hex').symm
  have hB : B' = B := by
    rw [hbls] at hhd'; rw [hhd] at hhd'; exact (Option.some.inj hhd').symm
  rw [hB] at hfm
  obtain ⟨k, road, hget, hk, hscan, hlb, hfirst⟩ :=
    firstMinAux_spec nearest B roads 0 res.roadIndex res.distanceMeters
      res.connection hfm
  have hk0 : res.roadIndex = k := by omega
  subst hk0
  refine ⟨road, hget, candidateMinDist_eq_coe nearest B road _ _ hscan, ?_, ?_⟩
  · intro j r hget'
    rcases hsr : roadScan nearest B r with _ | x
    · rw [candidateMinDist_eq_top nearest B r hsr]
      exact le_top
    · obtain ⟨e, c'⟩ := x
      rw [candidateMinDist_eq_coe nearest B r e c' hsr]
      exact_mod_cast hlb j r hget' e c' hsr
  · intro j r hget' hj
    rcases hsr : roadScan nearest B r with _ | x
    · rw [candidateMinDist_eq_top nearest B r hsr]
      exact WithTop.coe_lt_top _
    · obtain ⟨e, c'⟩ := x
      rw [candidateMinDist_eq_coe nearest B r e c' hsr]
      exact_mod_cast hfirst j r hget' hj e c' hsr

/-- Witness for C4 at a concrete input: two roads with candidate minima
`5` and `2`; the search returns index `1` with distance `2`, which is
minimal, and every lower index is strictly worse. -/
theorem claim_C4_witness :
    ∃ winner, [demoRoad0, demoRoad1].get? 1 = some winner ∧
      candidateMinDist demoNearest demoRing winner = ((2:ℚ) : WithTop ℚ) ∧
      (∀ j r, [demoRoad0, demoRoad1].get? j = some r →
        ((2:ℚ) : WithTop ℚ) ≤ candidateMinDist demoNearest demoRing r) ∧
      (∀ j r, [demoRoad0, demoRoad1].get? j = some r → j < 1 →
        ((2:ℚ) : WithTop ℚ) < candidateMinDist demoNearest demoRing r) :=
  claim_C4_first_argmin_road demoNearest (some demoGeom) [demoRoad0, demoRoad1]
    demoGeom [demoRing] demoRing ⟨1, 2, [((4:ℚ),(0:ℚ)),((5:ℚ),(4:ℚ))]⟩
    rfl (by decide) rfl (by decide)

/-- Shape of a road sample: it is either a boundary vertex paired with its
nearest point on the road (boundary-side point first), or a road vertex
paired with its nearest point on the boundary (again boundary-side point
first). -/
theorem mem_roadSamples (nearest : NearestFn) (B road : List Position)
    (d : ℚ) (conn : List Position)
    (h : (d, conn) ∈ roadSamples nearest B road) :
    (∃ pt np, pt ∈ B ∧ nearest road pt = some (np, d) ∧ conn = [pt, np]) ∨
    (∃ pt nb, pt ∈ road ∧ nearest B pt = some (nb, d) ∧ conn = [nb, pt]) := by
  unfold roadSamples turfExplode at h
  rcases List.mem_append.mp h with hm | hm
  · obtain ⟨pt, hpt, hmap⟩ := List.mem_filterMap.mp hm
    obtain ⟨nr, hnr, hf⟩ := Option.map_eq_some'.mp hmap
    obtain ⟨np, dd⟩ := nr
    have hdd : dd = d := congrArg Prod.fst hf
    have hcc : [pt, np] = conn := congrArg Prod.snd hf
    exact Or.inl ⟨pt, np, hpt, by rw [← hdd]; exact hnr, hcc.symm⟩
  · obtain ⟨pt, hpt, hmap⟩ := List.mem_filterMap.mp hm
    obtain ⟨nb, hnb, hf⟩ := Option.map_eq_some'.mp hmap
    obtain ⟨nbp, dd⟩ := nb
    have hdd : dd = d := congrArg Prod.fst hf
    have hcc : [nbp, pt] = conn := congrArg Prod.snd hf
    exact Or.inr ⟨pt, nbp, hpt, by rw [← hdd]; exact hnb, hcc.symm⟩

/-- C9: in every non-null result, the connection segment is a two-point
sequence ordered boundary-side point first and road-side point second,
whichever sampling direction realized the minimum: either the first point
is a boundary vertex and the second its nearest point on the winning road,
or the second point is a winning-road vertex and the first its nearest
point on the boundary, in both cases at the reported distance. -/
theorem claim_C9_connection_order (nearest : NearestFn) (pf : Option Geometry)
    (roads : List (List Position)) (g : Geometry)
    (bls : List (List Position)) (B : List Position) (res : ClosestRoadResult)
    (hpf : pf = some g) (hex : extractBoundaryLines g = .ok bls)
    (hhd : bls.head? = some B)
    (hres : findClosestRoadAndConnection nearest pf roads = .ok (some res)) :
    ∃ winner b r, roads.get? res.roadIndex = some winner ∧
      res.connection = [b, r] ∧
      ((b ∈ B ∧ nearest winner b = some (r, res.distanceMeters)) ∨
       (r ∈ winner ∧ nearest B r = some (b, res.distanceMeters))) := by
  obtain ⟨g', bls', B', hpf', hex', hhd', hfm⟩ :=
    findClosest_ok_some nearest pf roads res hres
  have hg : g' = g := by rw [hpf] at hpf'; exact (Option.some.inj hpf').symm
  have hbls : bls' = bls := by
    rw [hg] at hex'; rw [hex] at hex'; exact (Except.ok.inj hex').symm
  have hB : B' = B := by
    rw [hbls] at hhd'; rw [hhd] at hhd'; exact (Option.some.inj hhd').symm
  rw [hB] at hfm
  obtain ⟨k, road, hget, hk, hscan, _, _⟩ :=
    firstMinAux_spec nearest B roads 0 res.roadIndex res.distanceMeters
      res.connection hfm
  have hk0 : res.roadIndex = k := by omega
  obtain ⟨hmem, _⟩ :=
    roadScan_eq_some nearest B road res.distanceMeters res.connection hscan
  rcases mem_roadSamples nearest B road res.distanceMeters res.connection hmem with
    ⟨pt, np, hpt, hnr, hconn⟩ | ⟨pt, nb, hpt, hnb, hconn⟩
  · exact ⟨road, pt, np, hk0 ▸ hget, hconn, Or.inl ⟨hpt, hnr⟩⟩
  · exact ⟨road, nb, pt, hk0 ▸ hget, hconn, Or.inr ⟨hpt, hnb⟩⟩

/-- Witness for C9 at a concrete input: the returned connection is the
boundary vertex `(4,0)` followed by its nearest point `(5,4)` on the
winning road. -/
theorem claim_C9_witness :
    ∃ winner b r, [demoRoad0, demoRoad1].get? 1 = some winner ∧
      [((4:ℚ),(0:ℚ)), ((5:ℚ),(4:ℚ))] = [b, r] ∧
      ((b ∈ demoRing ∧ demoNearest winner b = some (r, 2)) ∨
       (r ∈ winner ∧ demoNearest demoRing r = some (b, 2))) :=
  claim_C9_connection_order demoNearest (some demoGeom) [demoRoad0, demoRoad1]
    demoGeom [demoRing] demoRing ⟨1, 2, [((4:ℚ),(0:ℚ)),((5:ℚ),(4:ℚ))]⟩
    rfl (by decide) rfl (by decide)

/-- C10: every non-null result is well-formed: the feature and boundary
line exist, `roadIndex` is a valid index into the road list, the
connection has exactly two coordinates, and the reported distance together
with the connection is one of the winning road's actual vertex samples
(so the initial `Infinity` never escapes). -/
theorem claim_C10_result_well_formed (nearest : NearestFn)
    (pf : Option Geometry) (roads : List (List Position))
    (res : ClosestRoadResult)
    (hres : findClosestRoadAndConnection nearest pf roads = .ok (some res)) :
    ∃ g bls B winner, pf = some g ∧ extractBoundaryLines g = .ok bls ∧
      bls.head? = some B ∧
      res.roadIndex < roads.length ∧
      roads.get? res.roadIndex = some winner ∧
      res.connection.length = 2 ∧
      (res.distanceMeters, res.connection) ∈ roadSamples nearest B winner := by
  obtain ⟨g, bls, B, hpf, hex, hhd, hfm⟩ :=
    findClosest_ok_some nearest pf roads res hres
  obtain ⟨k, road, hget, hk, hscan, _, _⟩ :=
    firstMinAux_spec nearest B roads 0 res.roadIndex res.distanceMeters
      res.connection hfm
  have hk0 : res.roadIndex = k := by omega
  obtain ⟨hmem, _⟩ :=
    roadScan_eq_some nearest B road res.distanceMeters res.connection hscan
  have hlen : res.connection.length = 2 := by
    rcases mem_roadSamples nearest B road res.distanceMeters res.connection hmem with
      ⟨pt, np, _, _, hconn⟩ | ⟨pt, nb, _, _, hconn⟩ <;> rw [hconn] <;> rfl
  have hlt : res.roadIndex < roads.length := by
    rw [hk0]
    exact (List.get?_eq_some.mp hget).choose
  exact ⟨g, bls, B, road, hpf, hex, hhd, hlt, hk0 ▸ hget, hlen, hmem⟩

/-- Witness for C10 at a concrete input: the non-null result's index is in
range, its connection has two coordinates, and its distance comes from an
actual sample. -/
theorem claim_C10_witness :
    ∃ g bls B winner, (some demoGeom : Option Geometry) = some g ∧
      extractBoundaryLines g = .ok bls ∧ bls.head? = some B ∧
      1 < [demoRoad0, demoRoad1].length ∧
      [demoRoad0, demoRoad1].get? 1 = some winner ∧
      ([((4:ℚ),(0:ℚ)), ((5:ℚ),(4:ℚ))] : List Position).length = 2 ∧
      (((2:ℚ)), [((4:ℚ),(0:ℚ)), ((5:ℚ),(4:ℚ))]) ∈
        roadSamples demoNearest B winner :=
  claim_C10_result_well_formed demoNearest (some demoGeom)
    [demoRoad0, demoRoad1] ⟨1, 2, [((4:ℚ),(0:ℚ)),((5:ℚ),(4:ℚ))]⟩ (by decide)

/-- C8: `findClosestRoadAndConnection` returns null, raising no error,
whenever the road list is empty, the polygon feature is absent, or the
boundary extraction yields no line (a non-areal geometry kind or a
MultiPolygon with no parts). -/
theorem claim_C8_null_cases (nearest : NearestFn) (pf : Option Geometry)
    (roads : List (List Position))
    (h : roads = [] ∨ pf = none ∨
      ∃ g, pf = some g ∧ extractBoundaryLines g = .ok []) :
    findClosestRoadAndConnection nearest pf roads = .ok none := by
  rcases h with rfl | rfl | ⟨g, rfl, hex⟩
  · cases pf with
    | none => rfl
    | some g =>
        unfold findClosestRoadAndConnection
        rfl
  · rfl
  · unfold findClosestRoadAndConnection
    dsimp only
    by_cases he : roads.isEmpty
    · rw [if_pos he]
    · rw [if_neg he, hex]
      rfl

/-- Witness for C8 at a concrete input: a MultiPolygon with zero parts has
no extractable boundary line, so the search returns null without error
even with a non-empty road list. -/
theorem claim_C8_witness :
    findClosestRoadAndConnection demoNearest
      (some (Geometry.multiPolygon [])) [demoRoad0] = .ok none :=
  claim_C8_null_cases demoNearest (some (Geometry.multiPolygon [])) [demoRoad0]
    (Or.inr (Or.inr ⟨Geometry.multiPolygon [], rfl, by decide⟩))

/-! ## Grid cells are single parts -/

/-- Membership in one `clipStep`: a cell is in the output state iff it was
already accumulated, or its tile passed the boolean test and it is the
Polygon clip result or one constituent part of a MultiPolygon clip. -/
theorem mem_clipStep
    (boolIntersectsF : PolyCoords → Geometry → Bool)
    (intersectF : PolyCoords → Geometry → Except String (Option Geometry))
    (g : Geometry) (acc : List PolyCoords) (cell c : PolyCoords) :
    c ∈ clipStep boolIntersectsF intersectF g acc cell ↔
      c ∈ acc ∨ (boolIntersectsF cell g = true ∧
        (intersectF cell g = .ok (some (Geometry.polygon c)) ∨
         ∃ parts, intersectF cell g = .ok (some (Geometry.multiPolygon parts))
            ∧ c ∈ parts)) := by
  unfold clipStep
  by_cases hb : boolIntersectsF cell g
  · rcases hi : intersectF cell g with e | o
    · simp [hb, hi]
    · rcases o with _ | go
      · simp [hb, hi]
      · cases go <;> simp [hb, hi, eq_comm]
  · simp [hb]

/-- Membership in the clipping fold over a list of tiles. -/
theorem mem_foldl_clipStep
    (boolIntersectsF : PolyCoords → Geometry → Bool)
    (intersectF : PolyCoords → Geometry → Except String (Option Geometry))
    (g : Geometry) :
    ∀ (l : List PolyCoords) (acc : List PolyCoords) (c : PolyCoords),
    c ∈ l.foldl (clipStep boolIntersectsF intersectF g) acc ↔
      c ∈ acc ∨ ∃ cell ∈ l, boolIntersectsF cell g = true ∧
        (intersectF cell g = .ok (some (Geometry.polygon c)) ∨
         ∃ parts, intersectF cell g = .ok (some (Geometry.multiPolygon parts))
            ∧ c ∈ parts)
  | [], acc, c => by simp
  | cell :: rest, acc, c => by
      rw [List.foldl_cons,
        mem_foldl_clipStep boolIntersectsF intersectF g rest _ c,
        mem_clipStep]
      simp only [List.mem_cons]
      constructor
      · rintro ((h | h) | ⟨cl, hcl, h⟩)
        · exact Or.inl h
        · exact Or.inr ⟨cell, Or.inl rfl, h⟩
        · exact Or.inr ⟨cl, Or.inr hcl, h⟩
      · rintro (h | ⟨cl, (rfl | hcl), h⟩)
        · exact Or.inl (Or.inl h)
        · exact Or.inl (Or.inr h)
        · exact Or.inr ⟨cl, hcl, h⟩

/-- C5: every polygon returned by `generateSubdivisionGrid` is a single
constituent: it belongs to the output exactly when some grid tile passes
the boolean intersection test and the cell is either that tile's Polygon
clip result or one constituent part of its MultiPolygon clip result —
so a MultiPolygon clip fans out into one output cell per part and no
multi-part cell ever appears in the output. -/
theorem claim_C5_grid_cells_single_part
    (turfBboxF : Geometry → BBox)
    (squareGridF : BBox → ℚ → List PolyCoords)
    (boolIntersectsF : PolyCoords → Geometry → Bool)
    (intersectF : PolyCoords → Geometry → Except String (Option Geometry))
    (g : Geometry) (cellSizeMeters : ℚ) (c : PolyCoords) :
    c ∈ generateSubdivisionGrid turfBboxF squareGridF boolIntersectsF
          intersectF (some g) cellSizeMeters ↔
      ∃ cell ∈ squareGridF (turfBboxF g) (cellSizeMeters / 1000),
        boolIntersectsF cell g = true ∧
        (intersectF cell g = .ok (some (Geometry.polygon c)) ∨
         ∃ parts, intersectF cell g = .ok (some (Geometry.multiPolygon parts))
            ∧ c ∈ parts) := by
  unfold generateSubdivisionGrid
  rw [mem_foldl_clipStep]
  simp

/-- An absent boundary feature yields an empty grid (the source's only
guard; the cell size is passed to the external square-grid backend
unvalidated). -/
theorem generateSubdivisionGrid_none_feature
    (turfBboxF : Geometry → BBox)
    (squareGridF : BBox → ℚ → List PolyCoords)
    (boolIntersectsF : PolyCoords → Geometry → Bool)
    (intersectF : PolyCoords → Geometry → Except String (Option Geometry))
    (cellSizeMeters : ℚ) :
    generateSubdivisionGrid turfBboxF squareGridF boolIntersectsF intersectF
      none cellSizeMeters = [] := rfl

/-- Whenever the external square-grid backend produces no tiles (for
whatever cell size), the grid result is empty. -/
theorem generateSubdivisionGrid_empty_grid
    (turfBboxF : Geometry → BBox)
    (squareGridF : BBox → ℚ → List PolyCoords)
    (boolIntersectsF : PolyCoords → Geometry → Bool)
    (intersectF : PolyCoords → Geometry → Except String (Option Geometry))
    (g : Geometry) (cellSizeMeters : ℚ)
    (h : squareGridF (turfBboxF g) (cellSizeMeters / 1000) = []) :
    generateSubdivisionGrid turfBboxF squareGridF boolIntersectsF intersectF
      (some g) cellSizeMeters = [] := by
  unfold generateSubdivisionGrid
  dsimp only
  rw [h]
  rfl

/-! ## Valuation -/

/-- C1 (amended): in `calculateLandValues` with `mode = linear`, every
returned value equals `max 0 (1 - distance / maxDist)`, where the divisor
`maxDist` is `maxDistanceOverride` whenever that argument is supplied,
non-null *and non-zero* (JavaScript `||` also rejects a zero override),
and otherwise is the maximum of the observed cell distances floored to at
least 1. -/
theorem claim_C1_linear_values {K : Type} [LinearOrderedField K]
    (expF : K → K) (colorScaleF : K → String)
    (centroidF : PolyCoords → Position)
    (pointToLineDistanceF : Position → List Position → K)
    (cells : List PolyCoords) (road : List Position)
    (decayK : K) (override : Option K) :
    ((calculateLandValues expF colorScaleF centroidF pointToLineDistanceF
        cells (some road) .linear decayK override).map CellValue.value
      = (cells.map fun c => pointToLineDistanceF (centroidF c) road).map
          (fun d => max 0 (1 - d / computeMaxDist
            (cells.map fun c => pointToLineDistanceF (centroidF c) road) override)))
    ∧ (∀ v, override = some v → v ≠ 0 →
        computeMaxDist (cells.map fun c => pointToLineDistanceF (centroidF c) road)
          override = v)
    ∧ ((override = none ∨ override = some 0) →
        computeMaxDist (cells.map fun c => pointToLineDistanceF (centroidF c) road)
          override
          = (cells.map fun c => pointToLineDistanceF (centroidF c) road).foldr max 1) := by
  refine ⟨?_, ?_, ?_⟩
  · cases cells with
    | nil => rfl
    | cons c0 cs =>
        simp [calculateLandValues, List.map_map, Function.comp_def]
  · intro v hv hv0
    simp [computeMaxDist, hv, hv0]
  · rintro (h | h) <;> simp [computeMaxDist, h]

/-- Counterexample to C1 as frozen: with distances `[5, 2]` and the
override supplied as the non-null value `0`, the divisor is not the
override (JavaScript `||` treats `0` as absent, so the observed maximum
`5` is used instead), and the returned linear values are not
`max 0 (1 - d / 0)`. -/
theorem claim_C1_counterexample :
    computeMaxDist [(5:ℚ), 2] (some 0) = 5 ∧
    ((calculateLandValues (K := ℚ) id (fun _ => "") (fun c => ((c.length : ℚ), 0))
        (fun p _ => p.1) [[[],[],[],[],[]], [[],[]]]
        (some [(0,0)]) .linear 1 (some 0)).map CellValue.value
      ≠ [max 0 (1 - 5 / (0:ℚ)), max 0 (1 - 2 / (0:ℚ))]) := by
  constructor
  · norm_num [computeMaxDist]
  · norm_num [calculateLandValues, computeMaxDist]

/-- Witness for the amended C1 at a concrete input: two cells with
distances `5` and `2`, a non-zero override `3`. -/
theorem claim_C1_witness :
    ((calculateLandValues (K := ℚ) id (fun _ => "") (fun c => ((c.length : ℚ), 0))
        (fun p _ => p.1) [[[],[],[],[],[]], [[],[]]]
        (some [(0,0)]) .linear 1 (some 3)).map CellValue.value
      = ([[[],[],[],[],[]], [[],[]]].map
            fun c => (fun (p : Position) (_ : List Position) => p.1)
              ((fun (c : PolyCoords) => ((c.length : ℚ), (0:ℚ))) c) [(0,0)]).map
          (fun d => max 0 (1 - d / computeMaxDist
            ([[[],[],[],[],[]], [[],[]]].map
              fun c => (fun (p : Position) (_ : List Position) => p.1)
                ((fun (c : PolyCoords) => ((c.length : ℚ), (0:ℚ))) c) [(0,0)]) (some 3))))
    ∧ (∀ v, (some (3:ℚ)) = some v → v ≠ 0 →
        computeMaxDist ([[[],[],[],[],[]], [[],[]]].map
            fun c => (fun (p : Position) (_ : List Position) => p.1)
              ((fun (c : PolyCoords) => ((c.length : ℚ), (0:ℚ))) c) [(0,0)])
          (some 3) = v)
    ∧ ((some (3:ℚ) = none ∨ some (3:ℚ) = some 0) →
        computeMaxDist ([[[],[],[],[],[]], [[],[]]].map
            fun c => (fun (p : Position) (_ : List Position) => p.1)
              ((fun (c : PolyCoords) => ((c.length : ℚ), (0:ℚ))) c) [(0,0)])
          (some 3)
          = ([[[],[],[],[],[]], [[],[]]].map
              fun c => (fun (p : Position) (_ : List Position) => p.1)
                ((fun (c : PolyCoords) => ((c.length : ℚ), (0:ℚ))) c) [(0,0)]).foldr max 1) :=
  claim_C1_linear_values (K := ℚ) id (fun _ => "") (fun c => ((c.length : ℚ), 0))
    (fun p _ => p.1) [[[],[],[],[],[]], [[],[]]] [(0,0)] 1 (some 3)

/-- C6: in `calculateLandValues` with `mode = exponential` and fixed
`decayK > 0`, every returned value equals `exp (-decayK * distance)`, and
the value is strictly decreasing in distance: of any two returned cells,
the one with strictly greater distance has a strictly smaller value. -/
theorem claim_C6_exponential_strict_decay
    (colorScaleF : ℝ → String) (centroidF : PolyCoords → Position)
    (pointToLineDistanceF : Position → List Position → ℝ)
    (cells : List PolyCoords) (road : List Position)
    (decayK : ℝ) (override : Option ℝ) (hk : 0 < decayK) :
    (∀ cv ∈ calculateLandValues Real.exp colorScaleF centroidF
        pointToLineDistanceF cells (some road) .exponential decayK override,
      cv.value = Real.exp (-decayK * cv.distance))
    ∧ (∀ cv₁ ∈ calculateLandValues Real.exp colorScaleF centroidF
          pointToLineDistanceF cells (some road) .exponential decayK override,
       ∀ cv₂ ∈ calculateLandValues Real.exp colorScaleF centroidF
          pointToLineDistanceF cells (some road) .exponential decayK override,
        cv₁.distance < cv₂.distance → cv₂.value < cv₁.value) := by
  have hval : ∀ cv ∈ calculateLandValues Real.exp colorScaleF centroidF
      pointToLineDistanceF cells (some road) .exponential decayK override,
      cv.value = Real.exp (-decayK * cv.distance) := by
    intro cv hcv
    cases cells with
    | nil => cases hcv
    | cons c0 cs =>
        simp only [calculateLandValues, List.mem_map] at hcv
        obtain ⟨r, _, rfl⟩ := hcv
        rfl
  refine ⟨hval, fun cv₁ h₁ cv₂ h₂ hd => ?_⟩
  rw [hval cv₁ h₁, hval cv₂ h₂]
  apply Real.exp_lt_exp.mpr
  rw [neg_mul, neg_mul]
  exact neg_lt_neg (mul_lt_mul_of_pos_left hd hk)

/-- Witness for C6 at a concrete input: two cells with distances `5` and
`2` and `decayK = 1 > 0`. -/
theorem claim_C6_witness :
    (∀ cv ∈ calculateLandValues Real.exp (fun _ => "")
        (fun c => ((c.length : ℚ), 0)) (fun p _ => (p.1 : ℝ))
        [[[],[],[],[],[]], [[],[]]] (some [(0,0)]) .exponential 1 none,
      cv.value = Real.exp (-1 * cv.distance))
    ∧ (∀ cv₁ ∈ calculateLandValues Real.exp (fun _ => "")
          (fun c => ((c.length : ℚ), 0)) (fun p _ => (p.1 : ℝ))
          [[[],[],[],[],[]], [[],[]]] (some [(0,0)]) .exponential 1 none,
       ∀ cv₂ ∈ calculateLandValues Real.exp (fun _ => "")
          (fun c => ((c.length : ℚ), 0)) (fun p _ => (p.1 : ℝ))
          [[[],[],[],[],[]], [[],[]]] (some [(0,0)]) .exponential 1 none,
        cv₁.distance < cv₂.distance → cv₂.value < cv₁.value) :=
  claim_C6_exponential_strict_decay (fun _ => "")
    (fun c => ((c.length : ℚ), 0)) (fun p _ => (p.1 : ℝ))
    [[[],[],[],[],[]], [[],[]]] [(0,0)] 1 none one_pos

end LandMapGradient
